import Mathlib

/-!
Verification of the epub repository's spine parsing, spine-order TOC
fallback, document-open TOC failure, retrieval errors and archive-reader
initialisation, against the natural-language specification.

The embedding follows the TypeScript source:
  * `parseSpine`  — src/unnamed/part_000
  * `walkSpine`   — src/src/toc/walkSpine.ts
  * `parseRootFile` (TOC step), `Retriever.getContent/getImage`,
    `searchManifestOrPanic` — src/lib/index.ts
  * `Reader.init`, `checkMimeType`, `partialSearch` — src/traits/Spine.ts
Repository code imported by those files but absent from the sources
(`Item`'s shape, `toArray`, `parseManifest`, `parseFlow`, `parseTOC`,
`MIMEError`) is modelled from the spec, marked in each doc comment.
-/

namespace Epub

/-- Modelled from the spec: a manifest Item is `{ id, href, media-type,
properties? }` (§3), with all declared XML attributes preserved by the
manifest parser (§4.1); a missing `id` attribute is tolerated (`id` is
optional) and a declared `title` attribute is the "richer title" that
§4.4 strategy 3 lets override the id-derived default.  Attribute values
coming from XML are strings; `none` means the attribute is absent. -/
structure Item where
  id : Option String
  title : Option String
  href : String
  mediaType : String
  properties : Option String
deriving DecidableEq

/-- The manifest: a mapping from item id to Item (§3), embedded as an
association list with unique keys. -/
abbrev Manifest := List (String × Item)

/-- First-match association-list lookup, the embedding of a JS object
property read `obj[key]` (keys are unique in objects built from XML). -/
def lookupFirst {β : Type} : List (String × β) → String → Option β
  | [], _ => none
  | (k, v) :: rest, key => if k = key then some v else lookupFirst rest key

/-- One `<itemref>` element of the raw spine: its `_attributes.idref`. -/
structure ItemRef where
  idref : String
deriving DecidableEq

/-- Modelled from the spec: the XML layer yields either a single object
or a sequence for repeated child elements (§4.1 "single-item collapsing
is a known format quirk"). -/
inductive OneOrMany (α : Type) where
  | one : α → OneOrMany α
  | many : List α → OneOrMany α
deriving DecidableEq

/-- Modelled from the spec: `toArray` (imported by the spine parser from
`./toArray`, not under the given sources) normalizes a single object or
a sequence to a sequence (§4.2 "normalize `itemref` to a sequence"). -/
def toArray {α : Type} : OneOrMany α → List α
  | .one a => [a]
  | .many l => l

/-- The raw `<spine>` element as the XML layer delivers it: its
attribute map under the reserved `_attributes` key and the optional
`itemref` child list (a JS-absent `itemref` is `none`). -/
structure RawSpine where
  _attributes : List (String × String)
  itemref : Option (OneOrMany ItemRef)

/-- The value held by the `contents` field of a parsed Spine.  In the
source the field starts as `[]`, may be overwritten by a raw `contents`
attribute through the `..._attributes` spread (a string), and is set to
the resolved item list whenever `itemref` is present. -/
inductive SpineContents where
  | str : String → SpineContents
  | items : List Item → SpineContents
deriving DecidableEq

/-- The parsed Spine: `toc`, `contents`, and every non-reserved raw
attribute merged as a top-level field (collected in `extra`; the
source's final `_attributes: {}` reset means no `_attributes` field
survives). -/
structure Spine where
  toc : String
  contents : SpineContents
  extra : List (String × String)
deriving DecidableEq

/-- The item sequence of a Spine.  A JS `for...of` over a string
`contents` yields one-character strings, none of which has an `id` own
property, so every iteration of `walkSpine`'s loop skips: for TOC
purposes a string `contents` holds no items. -/
def Spine.contentsItems : Spine → List Item
  | ⟨_, .items l, _⟩ => l
  | ⟨_, .str _, _⟩ => []

/-- JS template-literal rendering of the looked-up manifest value `l` as
interpolated into the spine parser's error message: `undefined` when the
lookup failed, `[object Object]` for a found item. -/
def jsItemString : Option Item → String
  | none => "undefined"
  | some _ => "[object Object]"

/-- The message of the `TypeError` thrown by the spine parser:
`Missing id at index ${index} | item, ${l}`. -/
def spineErrMsg (i : Nat) (l : Option Item) : String :=
  "Missing id at index " ++ toString i ++ " | item, " ++ jsItemString l

/-- The body of `itemref.map` in `parseSpine` (src/unnamed/part_000):
for the entry at index `j`, look up its `idref` in the manifest; if
found and the found item has an `id` own property, keep it, else throw
the `TypeError`; the first throw aborts the whole map. -/
def resolveFrom (m : Manifest) (j : Nat) : List ItemRef → Except String (List Item)
  | [] => .ok []
  | r :: rs =>
    match lookupFirst m r.idref with
    | some it =>
      -- the source's `l && l.hasOwnProperty("id")`: the item is found and
      -- has an `id` own property
      match it.id with
      | some _ =>
        match resolveFrom m (j + 1) rs with
        | .ok rest => .ok (it :: rest)
        | .error e => .error e
      | none => .error (spineErrMsg j (some it))
    | none => .error (spineErrMsg j none)

/-- Reserved keys of the object literal in `parseSpine`: a raw attribute
with one of these names does not survive as itself (`toc` is consumed,
`contents` is overwritten when `itemref` is present, `_attributes` is
reset to `{}` after the spread). -/
def spineReserved (k : String) : Bool :=
  k == "toc" || k == "contents" || k == "_attributes"

/-- `parseSpine` from src/unnamed/part_000: build
`{ toc: "ncx", contents: [], ..._attributes, _attributes: {} }`, then,
when `itemref` is present (truthy), replace `contents` with the mapped
resolution of the itemrefs, propagating its `TypeError`. -/
def parseSpine (raw : RawSpine) (m : Manifest) : Except String Spine :=
  let toc := (lookupFirst raw._attributes "toc").getD "ncx"
  let contents0 : SpineContents :=
    match lookupFirst raw._attributes "contents" with
    | some v => .str v
    | none => .items []
  let extra := raw._attributes.filter (fun p => !spineReserved p.1)
  match raw.itemref with
  | none => .ok ⟨toc, contents0, extra⟩
  | some ir =>
    match resolveFrom m 0 (toArray ir) with
    | .ok items => .ok ⟨toc, .items items, extra⟩
    | .error e => .error e

/-- A TOC Chapter (§3): the fields the `walkSpine` element literal
carries — the defaulted `title`, the assigned `order`, and the item
fields copied by the `...item` spread. -/
structure Chapter where
  title : Option String
  order : Nat
  id : Option String
  href : String
  mediaType : String
  properties : Option String
deriving DecidableEq

/-- The TableOfContents: an insertion-ordered mapping from chapter id to
Chapter, embedded as the entry list of a JS `Map`. -/
abbrev TableOfContents := List (String × Chapter)

/-- JS `Map.prototype.set`: an existing key keeps its position and gets
the new value; a new key is appended. -/
def tocSet (t : TableOfContents) (k : String) (c : Chapter) : TableOfContents :=
  if t.any (fun p => p.1 == k) then
    t.map (fun p => if p.1 == k then (k, c) else p)
  else t ++ [(k, c)]

/-- The element literal of `walkSpine`:
`{ title: item.id, order: order++, ...item }` — the spread lets the
item's own `title` override the id-derived default and copies the item's
fields verbatim. -/
def chapterOf (it : Item) (n : Nat) : Chapter :=
  { title := it.title <|> it.id
    order := n
    id := it.id
    href := it.href
    mediaType := it.mediaType
    properties := it.properties }

/-- The loop of `walkSpine` (src/src/toc/walkSpine.ts): build the
element (consuming one `order` value), skip it when `element.id ==
undefined` (element.id is item.id: the spread copies it verbatim),
otherwise `toc.set(item.id, element)`. -/
def walkSpineGo : List Item → Nat → TableOfContents → TableOfContents
  | [], _, acc => acc
  | it :: rest, n, acc =>
    match it.id with
    | none => walkSpineGo rest (n + 1) acc
    | some k => walkSpineGo rest (n + 1) (tocSet acc k (chapterOf it n))

/-- `walkSpine` from src/src/toc/walkSpine.ts: the spine-order fallback
strategy, iterating `spine.contents` with `order` starting at 0. -/
def walkSpine (sp : Spine) : TableOfContents :=
  walkSpineGo sp.contentsItems 0 []

/-- The `order` values of a TableOfContents, in entry order. -/
def ordersList (t : TableOfContents) : List Nat :=
  t.map (fun p => p.2.order)

/-- Modelled from the spec: the Manifest Parser (§4.1, not under the
given sources) normalizes the raw item list to a sequence and maps each
item's id to the item; an item lacking an `id` attribute yields an entry
unreachable by id, embedded as contributing no binding. -/
def parseManifest (raw : OneOrMany Item) : Manifest :=
  (toArray raw).filterMap (fun it => it.id.map (fun i => (i, it)))

/-- The linear reading flow. Modelled from the spec: Flow mirrors
`spine.contents` with no information added (§4.3). -/
abbrev Flow := List Item

/-- Modelled from the spec: the Flow Builder (§4.3, not under the given
sources) derives the Flow from the resolved `spine.contents`. -/
def parseFlow (c : SpineContents) : Flow :=
  match c with
  | .items l => l
  | .str _ => []

/-- Modelled from the spec: the TOC Resolution Pipeline (§4.4,
src/toc/parseTOC is not under the given sources) tries the nav-map
strategy, the nav-document strategy, then the spine-order fallback
(`walkSpine`, which is in the sources); success of a strategy means a
non-empty TOC, an internal strategy failure or absent document counts as
"does not apply" (its argument here is `none`); the pipeline yields no
TOC exactly when no strategy produces a non-empty one.  The outcomes of
the two fetching strategies are abstracted as arguments. -/
def parseTOC (navMap navDoc : Option TableOfContents) (sp : Spine) :
    Option TableOfContents :=
  [navMap.getD [], navDoc.getD [], walkSpine sp].find? (fun t => !t.isEmpty)

/-- The aggregate root built by `parseRootFile` (§3; metadata elided —
no claim concerns it). -/
structure Parts where
  manifest : Manifest
  spine : Spine
  flow : Flow
  toc : TableOfContents
  version : String
deriving DecidableEq

/-- The raw `<package>` descriptor as far as `parseRootFile` consumes
it: the manifest item list, the raw spine, and the optional `version`
attribute. -/
structure Package where
  manifestItems : OneOrMany Item
  spine : RawSpine
  version : Option String

/-- `parseRootFile` from src/lib/index.ts: sequence manifest → spine →
flow → toc (progress events elided — they only notify listeners) and
throw `TypeError("NO TOC")` when the TOC pipeline yields nothing;
`version` defaults to "2.0".  `parseManifest`, `parseFlow` and
`parseTOC` are spec-modelled (their sources are not given); the nav-map
and nav-document strategy outcomes are abstracted as arguments. -/
def parseRootFile (pkg : Package) (navMap navDoc : Option TableOfContents) :
    Except String Parts :=
  let manifest := parseManifest pkg.manifestItems
  match parseSpine pkg.spine manifest with
  | .error e => .error e
  | .ok spine =>
    let flow := parseFlow spine.contents
    match parseTOC navMap navDoc spine with
    | some toc => .ok ⟨manifest, spine, flow, toc, pkg.version.getD "2.0"⟩
    | none => .error "NO TOC"

/-- Errors surfaced by the retrieval API of src/lib/index.ts. -/
inductive RetrievalError where
  | unknownItem : String → RetrievalError
  | mimeMismatch : String → String → RetrievalError
  | readFail : String → RetrievalError
deriving DecidableEq

/-- `searchManifestOrPanic` from src/lib/index.ts: look the id up in
`parts.manifest` and throw `UnknownItemError` with message
`Unkown manifest item: ${id}` when the lookup is `undefined`. -/
def searchManifestOrPanic (parts : Parts) (id : String) :
    Except RetrievalError Item :=
  match lookupFirst parts.manifest id with
  | none => .error (.unknownItem ("Unkown manifest item: " ++ id))
  | some l => .ok l

/-- The test of the `ALLOWED_MIMES` regular expression
`^(application\/xhtml\+xml|image\/svg\+xml|text\/css)$` with the `i`
flag. -/
def allowedMime (s : String) : Bool :=
  let t := s.toLower
  t == "application/xhtml+xml" || t == "image/svg+xml" || t == "text/css"

/-- The test of the `getImage` pattern `^image\//i` on the trimmed
media type. -/
def imageMime (s : String) : Bool :=
  (s.trim.toLower).startsWith "image/"

/-- Modelled from the spec: `MIMEError.unless` (src/lib/error, not under
the given sources) raises a fatal format-mismatch error carrying the id
and the actual value when the actual value fails the expected pattern
(§7). -/
def mimeUnless (id actual : String) (ok : Bool) : Except RetrievalError Unit :=
  if ok then .ok () else .error (.mimeMismatch id actual)

/-- `Retriever.getContent` from src/lib/index.ts: find the item or
panic, enforce `ALLOWED_MIMES` on its media type, then read its `href`
through the archive reader (abstracted as `readData`, which may fail)
and return the text.  The Retriever closes over `parts` and never writes
to it; the returned pair's second component is the `parts` aggregate
after the call. -/
def getContent (parts : Parts) (readData : String → String → Except String String)
    (id : String) : Except RetrievalError String × Parts :=
  (match searchManifestOrPanic parts id with
   | .error e => .error e
   | .ok elem =>
     match mimeUnless id elem.mediaType (allowedMime elem.mediaType) with
     | .error e => .error e
     | .ok _ =>
       match readData elem.href elem.mediaType with
       | .ok d => .ok d
       | .error e => .error (.readFail e)
  , parts)

/-- `Retriever.getImage` from src/lib/index.ts: find the item or panic,
enforce `^image\//i` on the trimmed media type, read the blob and return
its object URL (`URL.createObjectURL` abstracted as `createURL`).  As
with `getContent`, `parts` is only read. -/
def getImage (parts : Parts) (readData : String → String → Except String String)
    (createURL : String → String) (id : String) :
    Except RetrievalError String × Parts :=
  (match searchManifestOrPanic parts id with
   | .error e => .error e
   | .ok item =>
     match mimeUnless id item.mediaType (imageMime item.mediaType) with
     | .error e => .error e
     | .ok _ =>
       match readData item.href item.mediaType with
       | .ok d => .ok (createURL d)
       | .error e => .error (.readFail e)
  , parts)

/-- A zip entry as the archive layer lists it: name, directory flag and
decoded data. -/
structure Entry where
  filename : String
  directory : Bool
  data : String
deriving DecidableEq

/-- `Reader.partialSearch` from src/traits/Spine.ts: strip a leading
`/`, lower-case (`decodeURI` is the identity on the escape-free names
used here), and find the first non-directory entry whose lower-cased
name contains, or is contained in, the searched name; failing that,
throw the not-found error. -/
def partialSearch (entries : List Entry) (name : String) : Except String Entry :=
  let fn := (if name.startsWith "/" then name.drop 1 else name).toLower
  match entries.find? (fun n =>
      !n.directory &&
        ((n.filename.toLower).containsSubstr fn
          || fn.containsSubstr (n.filename.toLower))) with
  | some e => .ok e
  | none =>
    .error ("Could not find entry with name " ++ fn
      ++ ", \"extracted filename was " ++ fn)

/-- `Reader.read` from src/traits/Spine.ts, reduced to the data of the
found entry (writer selection only chooses text or blob decoding). -/
def readEntry (entries : List Entry) (name : String) : Except String String :=
  match partialSearch entries name with
  | .ok e => .ok e.data
  | .error e => .error e

/-- `Reader.checkMimeType` from src/traits/Spine.ts: read the
`mimetype` entry and require its content to be exactly
`application/epub+zip` (`MIMEError.unless` spec-modelled as a fatal
mismatch error). -/
def checkMimeType (entries : List Entry) : Except String Unit :=
  match readEntry entries "mimetype" with
  | .error e => .error e
  | .ok data =>
    if data == "application/epub+zip" then .ok ()
    else .error ("Invalid mime type for mimetype: " ++ data)

/-- The externally visible checks `Reader.init` performs after listing
the entries. -/
inductive InitAction where
  | checkedMime : InitAction
  | readContainer : InitAction
deriving DecidableEq

/-- `Reader.init` from src/traits/Spine.ts, as the trace of checks it
performs together with its outcome: when the entry list is non-empty
(truthy length) it checks the MIME signature and then reads
`meta-inf/container.xml`; otherwise it throws `Empty archive!` at once.
The second component is `none` on success and the thrown message
otherwise. -/
def initTrace (entries : List Entry) : List InitAction × Option String :=
  if entries.length ≠ 0 then
    match checkMimeType entries with
    | .error e => ([.checkedMime], some e)
    | .ok _ =>
      match readEntry entries "meta-inf/container.xml" with
      | .error e => ([.checkedMime], some e)
      | .ok _ => ([.checkedMime, .readContainer], none)
  else ([], some "Empty archive!")

/-- Decidable equality of `Except` results, for evaluating the parsers
on concrete inputs. -/
instance exceptDecEq {ε α : Type} [DecidableEq ε] [DecidableEq α] :
    DecidableEq (Except ε α)
  | .error e, .error f =>
    if h : e = f then .isTrue (by rw [h]) else .isFalse (fun hh => h (Except.error.inj hh))
  | .error _, .ok _ => .isFalse (fun hh => Except.noConfusion hh)
  | .ok _, .error _ => .isFalse (fun hh => Except.noConfusion hh)
  | .ok a, .ok b =>
    if h : a = b then .isTrue (by rw [h]) else .isFalse (fun hh => h (Except.ok.inj hh))

/-- The contribution of the spine item at position `p.1` to the
spine-order TOC: nothing when its id is undefined, otherwise the entry
keyed by the id. -/
def spineEntry (p : Nat × Item) : Option (String × Chapter) :=
  p.2.id.map (fun k => (k, chapterOf p.2 p.1))

/-- A sample manifest item with id `a`. -/
def itemA : Item := ⟨some "a", none, "a.xhtml", "application/xhtml+xml", none⟩

/-- A sample manifest item with id `b`. -/
def itemB : Item := ⟨some "b", none, "b.xhtml", "application/xhtml+xml", none⟩

/-- A sample item whose `id` attribute is absent. -/
def itemNoId : Item := ⟨none, none, "x.xhtml", "application/xhtml+xml", none⟩

/-- A sample two-item manifest. -/
def manifestAB : Manifest := [("a", itemA), ("b", itemB)]

/-- A sample itemref list referencing `b` then `a`. -/
def itemrefsBA : OneOrMany ItemRef := .many [⟨"b"⟩, ⟨"a"⟩]

/-- A raw spine whose only attribute is named `contents`. -/
def rawSpineContentsAttr : RawSpine := ⟨[("contents", "X")], some (.many [])⟩

/-- A raw spine carrying a `toc` attribute and one pass-through
attribute. -/
def rawSpineW8 : RawSpine :=
  ⟨[("toc", "t"), ("page-progression-direction", "ltr")], none⟩

/-- A sample package with an empty manifest and an empty itemref list. -/
def pkgEmpty : Package := ⟨.many [], ⟨[], some (.many [])⟩, none⟩

/-- A sample parsed document whose manifest holds only the id `x`. -/
def partsX : Parts := ⟨[("x", itemA)], ⟨"ncx", .items [], []⟩, [], [], "2.0"⟩

/-- When every itemref's lookup finds an item carrying an `id`
attribute, the resolution succeeds, yielding exactly the looked-up items
in order. -/
theorem resolveFrom_ok (m : Manifest) :
    ∀ (entries : List ItemRef) (j : Nat),
      (∀ r ∈ entries, ((lookupFirst m r.idref).bind Item.id).isSome = true) →
      ∃ l, resolveFrom m j entries = .ok l ∧ l.length = entries.length ∧
        ∀ i : Nat, (entries[i]?).bind (fun r => lookupFirst m r.idref) = l[i]? := by
  intro entries
  induction entries with
  | nil =>
    intro j _
    exact ⟨[], rfl, rfl, fun i => by simp⟩
  | cons r rs ih =>
    intro j h
    have hr := h r (List.mem_cons_self r rs)
    cases hm : lookupFirst m r.idref with
    | none => rw [hm] at hr; simp at hr
    | some it =>
      rw [hm] at hr
      simp only [Option.some_bind] at hr
      obtain ⟨s, hs⟩ := Option.isSome_iff_exists.mp hr
      obtain ⟨l, hl, hlen, hidx⟩ :=
        ih (j + 1) (fun r' hr' => h r' (List.mem_cons_of_mem _ hr'))
      refine ⟨it :: l, ?_, by simp [hlen], ?_⟩
      · simp [resolveFrom, hm, hs, hl]
      · intro i
        cases i with
        | zero => simp [hm]
        | succ i => simpa using hidx i

/-- Claim C1: for every manifest and raw spine whose itemref entries
each reference an id present in the manifest, the found item carrying an
`id` attribute, `parseSpine` returns a contents sequence of the same
length, in the same order, whose element at each index is the manifest
item looked up by that entry's idref. -/
theorem parseSpine_resolves_in_order (m : Manifest)
    (attrs : List (String × String)) (ir : OneOrMany ItemRef)
    (hres : ∀ r ∈ toArray ir, ((lookupFirst m r.idref).bind Item.id).isSome = true) :
    ∃ sp l, parseSpine ⟨attrs, some ir⟩ m = .ok sp ∧ sp.contents = .items l ∧
      l.length = (toArray ir).length ∧
      ∀ i : Nat, ((toArray ir)[i]?).bind (fun r => lookupFirst m r.idref) = l[i]? := by
  obtain ⟨l, hl, hlen, hidx⟩ := resolveFrom_ok m (toArray ir) 0 hres
  refine ⟨⟨(lookupFirst attrs "toc").getD "ncx", .items l,
    attrs.filter (fun p => !spineReserved p.1)⟩, l, ?_, rfl, hlen, hidx⟩
  simp [parseSpine, hl]

/-- Witness for C1 on a concrete manifest and spine. -/
theorem parseSpine_resolves_in_order_witness :
    ∃ sp l, parseSpine ⟨[], some itemrefsBA⟩ manifestAB = .ok sp ∧
      sp.contents = .items l ∧ l.length = (toArray itemrefsBA).length ∧
      ∀ i : Nat, ((toArray itemrefsBA)[i]?).bind
        (fun r => lookupFirst manifestAB r.idref) = l[i]? :=
  parseSpine_resolves_in_order manifestAB [] itemrefsBA (by decide)

/-- When every itemref before index `k` resolves to an item carrying an
`id` attribute and the one at `k` finds nothing, the resolution throws
the `TypeError` for index `k`, with `undefined` interpolated. -/
theorem resolveFrom_error_at (m : Manifest) :
    ∀ (entries : List ItemRef) (k j : Nat), k < entries.length →
      (∀ i, i < k →
        ((entries[i]?).bind
          (fun r => (lookupFirst m r.idref).bind Item.id)).isSome = true) →
      ((entries[k]?).bind (fun r => lookupFirst m r.idref)) = none →
      resolveFrom m j entries = .error (spineErrMsg (j + k) none) := by
  intro entries
  induction entries with
  | nil => intro k j hk; simp at hk
  | cons r rs ih =>
    intro k j hk hbefore habsent
    cases k with
    | zero =>
      simp only [List.getElem?_cons_zero, Option.some_bind] at habsent
      simp [resolveFrom, habsent]
    | succ k =>
      have h0 := hbefore 0 (Nat.succ_pos k)
      simp only [List.getElem?_cons_zero, Option.some_bind] at h0
      cases hm : lookupFirst m r.idref with
      | none => rw [hm] at h0; simp at h0
      | some it =>
        rw [hm] at h0
        simp only [Option.some_bind] at h0
        obtain ⟨s, hs⟩ := Option.isSome_iff_exists.mp h0
        have hrec := ih k (j + 1) (Nat.lt_of_succ_lt_succ hk)
          (fun i hi => by
            have := hbefore (i + 1) (Nat.succ_lt_succ hi)
            simpa using this)
          (by simpa using habsent)
        have harith : j + 1 + k = j + (k + 1) := by omega
        rw [harith] at hrec
        simp [resolveFrom, hm, hs, hrec]

/-- Claim C5: for every raw spine in which the itemref at index `k`
references an id absent from the manifest while every earlier itemref
resolves to an item carrying an `id` attribute, `parseSpine` fails with
the `TypeError` whose message names index `k` (with the empty lookup
result `undefined` interpolated) rather than returning a Spine. -/
theorem parseSpine_dangling_ref_error (m : Manifest)
    (attrs : List (String × String)) (ir : OneOrMany ItemRef) (k : Nat)
    (hk : k < (toArray ir).length)
    (hbefore : ∀ i, i < k →
      (((toArray ir)[i]?).bind
        (fun r => (lookupFirst m r.idref).bind Item.id)).isSome = true)
    (habsent : (((toArray ir)[k]?).bind (fun r => lookupFirst m r.idref)) = none) :
    parseSpine ⟨attrs, some ir⟩ m
      = .error ("Missing id at index " ++ toString k ++ " | item, undefined") := by
  have h := resolveFrom_error_at m (toArray ir) k 0 hk hbefore habsent
  rw [Nat.zero_add] at h
  have hmsg : spineErrMsg k none
      = "Missing id at index " ++ toString k ++ " | item, undefined" := by
    simp only [spineErrMsg, jsItemString]
    rw [String.append_assoc]
    rfl
  rw [hmsg] at h
  simp [parseSpine, h]

/-- Witness for C5: a spine referencing `a` then the absent id `zzz`
fails naming index 1. -/
theorem parseSpine_dangling_ref_error_witness :
    parseSpine ⟨[], some (.many [⟨"a"⟩, ⟨"zzz"⟩])⟩ manifestAB
      = .error ("Missing id at index " ++ toString 1 ++ " | item, undefined") :=
  parseSpine_dangling_ref_error manifestAB [] (.many [⟨"a"⟩, ⟨"zzz"⟩]) 1
    (by decide) (by decide) (by decide)

/-- Every item of a successful resolution carries an `id` attribute. -/
theorem resolveFrom_mem_id_isSome (m : Manifest) :
    ∀ (entries : List ItemRef) (j : Nat) (l : List Item),
      resolveFrom m j entries = .ok l → ∀ it ∈ l, it.id.isSome = true := by
  intro entries
  induction entries with
  | nil =>
    intro j l hl it hit
    simp only [resolveFrom, Except.ok.injEq] at hl
    subst hl
    simp at hit
  | cons r rs ih =>
    intro j l hl it hit
    cases hm : lookupFirst m r.idref with
    | none => simp [resolveFrom, hm] at hl
    | some jt =>
      cases hid : jt.id with
      | none => simp [resolveFrom, hm, hid] at hl
      | some s =>
        cases hrec : resolveFrom m (j + 1) rs with
        | error e => simp [resolveFrom, hm, hid, hrec] at hl
        | ok rest =>
          simp only [resolveFrom, hm, hid, hrec, Except.ok.injEq] at hl
          subst hl
          rcases List.mem_cons.mp hit with h | h
          · rw [h, hid]; rfl
          · exact ih (j + 1) rest hrec it h

/-- Claim C6: whenever `parseSpine` returns successfully, every element
of the returned contents sequence is a manifest item whose `id`
attribute is present; items lacking it trigger the hard parse error
instead of being included. -/
theorem parseSpine_contents_ids_defined (raw : RawSpine) (m : Manifest)
    (sp : Spine) (l : List Item) (hok : parseSpine raw m = .ok sp)
    (hc : sp.contents = .items l) : ∀ it ∈ l, it.id.isSome = true := by
  intro it hit
  cases hir : raw.itemref with
  | none =>
    cases hattr : lookupFirst raw._attributes "contents" with
    | none =>
      simp only [parseSpine, hir, hattr, Except.ok.injEq] at hok
      subst hok
      have hl : SpineContents.items ([] : List Item) = SpineContents.items l := hc
      cases hl
      simp at hit
    | some v =>
      simp only [parseSpine, hir, hattr, Except.ok.injEq] at hok
      subst hok
      have hl : SpineContents.str v = SpineContents.items l := hc
      exact SpineContents.noConfusion hl
  | some ir =>
    cases hres : resolveFrom m 0 (toArray ir) with
    | error e => simp [parseSpine, hir, hres] at hok
    | ok items =>
      simp only [parseSpine, hir, hres, Except.ok.injEq] at hok
      subst hok
      have hl : SpineContents.items items = SpineContents.items l := hc
      cases hl
      exact resolveFrom_mem_id_isSome m (toArray ir) 0 _ hres it hit

/-- Witness for C6 on a concrete successful parse. -/
theorem parseSpine_contents_ids_defined_witness : itemA.id.isSome = true :=
  parseSpine_contents_ids_defined ⟨[], some (.many [⟨"a"⟩])⟩ manifestAB
    ⟨"ncx", .items [itemA], []⟩ [itemA] (by decide) rfl itemA (by decide)

/-- Counterexample to C8 as stated: on a raw spine carrying an attribute
named `contents` (value `X`) together with a present `itemref` list, the
parse succeeds but the returned Spine's only top-level fields are the
computed `toc`, the computed contents and an empty pass-through set —
the `contents` attribute is overwritten by the resolved item list and is
not merged verbatim anywhere. -/
theorem parseSpine_contents_attr_cex :
    parseSpine rawSpineContentsAttr [] = .ok ⟨"ncx", .items [], []⟩ ∧
    SpineContents.items ([] : List Item) ≠ SpineContents.str "X" ∧
    ("contents", "X") ∉ (Spine.mk "ncx" (.items []) []).extra := by
  refine ⟨by decide, by decide, by decide⟩

/-- Claim C8 (amended): whenever `parseSpine` returns, `toc` equals the
raw spine's `toc` attribute when present and `"ncx"` otherwise, and
every attribute other than the reserved names `toc`, `contents` and
`_attributes` is merged verbatim as a top-level field of the returned
Spine; a `contents` attribute is overwritten by the computed contents
whenever `itemref` is present, and an `_attributes` attribute is
discarded by the final `_attributes: {}` reset. -/
theorem parseSpine_attr_passthrough (raw : RawSpine) (m : Manifest)
    (sp : Spine) (hok : parseSpine raw m = .ok sp) :
    sp.toc = (lookupFirst raw._attributes "toc").getD "ncx" ∧
    ∀ k v, (k, v) ∈ raw._attributes → spineReserved k = false →
      (k, v) ∈ sp.extra := by
  have hmem : ∀ k v, (k, v) ∈ raw._attributes → spineReserved k = false →
      (k, v) ∈ raw._attributes.filter (fun p => !spineReserved p.1) := by
    intro k v hkv hres
    exact List.mem_filter.mpr ⟨hkv, by simp [hres]⟩
  cases hir : raw.itemref with
  | none =>
    simp only [parseSpine, hir, Except.ok.injEq] at hok
    subst hok
    exact ⟨rfl, hmem⟩
  | some ir =>
    cases hres : resolveFrom m 0 (toArray ir) with
    | error e => simp [parseSpine, hir, hres] at hok
    | ok items =>
      simp only [parseSpine, hir, hres, Except.ok.injEq] at hok
      subst hok
      exact ⟨rfl, hmem⟩

/-- Witness for the amended C8 on a concrete raw spine: the `toc`
attribute `t` is taken over and the non-reserved attribute
`page-progression-direction` survives verbatim. -/
theorem parseSpine_attr_passthrough_witness :
    (Spine.mk "t" (.items []) [("page-progression-direction", "ltr")]).toc
        = (lookupFirst rawSpineW8._attributes "toc").getD "ncx" ∧
    ("page-progression-direction", "ltr")
        ∈ (Spine.mk "t" (.items []) [("page-progression-direction", "ltr")]).extra :=
  ⟨(parseSpine_attr_passthrough rawSpineW8 []
      ⟨"t", .items [], [("page-progression-direction", "ltr")]⟩ (by decide)).1,
   (parseSpine_attr_passthrough rawSpineW8 []
      ⟨"t", .items [], [("page-progression-direction", "ltr")]⟩ (by decide)).2
     "page-progression-direction" "ltr" (by decide) (by decide)⟩

/-- An entry of a `tocSet` result is an old entry or the new binding. -/
theorem tocSet_mem (acc : TableOfContents) (k : String) (c : Chapter) :
    ∀ e ∈ tocSet acc k c, e ∈ acc ∨ e = (k, c) := by
  intro e he
  unfold tocSet at he
  by_cases h : acc.any (fun p => p.1 == k)
  · rw [if_pos h] at he
    obtain ⟨p, hp, hpe⟩ := List.mem_map.mp he
    by_cases hk : (p.1 == k) = true
    · right; rw [if_pos hk] at hpe; exact hpe.symm
    · left; rw [if_neg hk] at hpe; rw [← hpe]; exact hp
  · rw [if_neg h] at he
    rcases List.mem_append.mp he with h1 | h1
    · left; exact h1
    · right; simpa using h1

/-- Setting an absent key appends the binding at the end. -/
theorem tocSet_of_not_mem (acc : TableOfContents) (k : String) (c : Chapter)
    (h : ∀ p ∈ acc, p.1 ≠ k) : tocSet acc k c = acc ++ [(k, c)] := by
  unfold tocSet
  rw [if_neg]
  intro hc
  obtain ⟨p, hp, hpk⟩ := List.any_eq_true.mp hc
  exact h p hp (by simpa using hpk)

/-- Each entry produced by the walkSpine loop comes from the starting
accumulator or from a visited item whose id is defined and equal to the
entry's key. -/
theorem walkSpineGo_mem :
    ∀ (l : List Item) (n : Nat) (acc : TableOfContents) (e : String × Chapter),
      e ∈ walkSpineGo l n acc → e ∈ acc ∨ ∃ it ∈ l, it.id = some e.1 := by
  intro l
  induction l with
  | nil => intro n acc e he; left; simpa [walkSpineGo] using he
  | cons it rest ih =>
    intro n acc e he
    cases hid : it.id with
    | none =>
      rcases ih (n + 1) acc e (by simpa [walkSpineGo, hid] using he) with h | ⟨jt, hjt, hje⟩
      · left; exact h
      · right; exact ⟨jt, List.mem_cons_of_mem _ hjt, hje⟩
    | some k =>
      have he' : e ∈ walkSpineGo rest (n + 1) (tocSet acc k (chapterOf it n)) := by
        simpa [walkSpineGo, hid] using he
      rcases ih (n + 1) _ e he' with h | ⟨jt, hjt, hje⟩
      · rcases tocSet_mem _ _ _ e h with h2 | h2
        · left; exact h2
        · right
          refine ⟨it, List.mem_cons_self it rest, ?_⟩
          rw [h2]
          exact hid
      · right; exact ⟨jt, List.mem_cons_of_mem _ hjt, hje⟩

/-- Claim C7: for every spine, every entry of the TableOfContents that
`walkSpine` returns is keyed by the defined id of one of the spine's
items; an item whose id is undefined is skipped without error and
contributes no entry, so no key is undefined. -/
theorem walkSpine_keys_from_defined_ids (sp : Spine) (e : String × Chapter)
    (he : e ∈ walkSpine sp) :
    ∃ it, it ∈ sp.contentsItems ∧ it.id = some e.1 := by
  rcases walkSpineGo_mem sp.contentsItems 0 [] e he with h | ⟨it, hit, hids⟩
  · simp at h
  · exact ⟨it, hit, hids⟩

/-- Witness for C7: the spine `[itemNoId, itemA]` yields the single
entry keyed `a`, which stems from `itemA`'s defined id. -/
theorem walkSpine_keys_from_defined_ids_witness :
    ∃ it, it ∈ (Spine.mk "ncx" (.items [itemNoId, itemA]) []).contentsItems ∧
      it.id = some ("a", chapterOf itemA 1).1 :=
  walkSpine_keys_from_defined_ids ⟨"ncx", .items [itemNoId, itemA], []⟩
    ("a", chapterOf itemA 1) (by decide)

/-- The walkSpine loop, on pairwise-distinct defined ids and an
accumulator free of those keys, appends exactly the entries of the
defined-id items, each keyed by its id and carrying its position as
`order`. -/
theorem walkSpineGo_eq_filterMap :
    ∀ (l : List Item) (n : Nat) (acc : TableOfContents),
      (l.filterMap Item.id).Nodup →
      (∀ k ∈ l.filterMap Item.id, ∀ p ∈ acc, p.1 ≠ k) →
      walkSpineGo l n acc = acc ++ (List.enumFrom n l).filterMap spineEntry := by
  intro l
  induction l with
  | nil => intro n acc _ _; simp [walkSpineGo]
  | cons it rest ih =>
    intro n acc hnd hk
    cases hid : it.id with
    | none =>
      have hrec := ih (n + 1) acc
        (by simpa [List.filterMap_cons, hid] using hnd)
        (by
          intro k hkm
          refine hk k ?_
          simp only [List.filterMap_cons, hid]
          exact hkm)
      have hstep : walkSpineGo (it :: rest) n acc = walkSpineGo rest (n + 1) acc := by
        simp [walkSpineGo, hid]
      rw [hstep, hrec]
      congr 1
      simp [List.enumFrom_cons, spineEntry, hid]
    | some k0 =>
      have hfm : (it :: rest).filterMap Item.id = k0 :: rest.filterMap Item.id := by
        simp [List.filterMap_cons, hid]
      rw [hfm] at hnd hk
      have hnotin : k0 ∉ rest.filterMap Item.id := (List.nodup_cons.mp hnd).1
      have hset : tocSet acc k0 (chapterOf it n) = acc ++ [(k0, chapterOf it n)] :=
        tocSet_of_not_mem acc k0 _ (fun p hp => hk k0 (List.mem_cons_self _ _) p hp)
      have hrec := ih (n + 1) (acc ++ [(k0, chapterOf it n)])
        (List.nodup_cons.mp hnd).2
        (by
          intro k hkm p hp
          rcases List.mem_append.mp hp with h1 | h1
          · exact hk k (List.mem_cons_of_mem _ hkm) p h1
          · have hpk : p = (k0, chapterOf it n) := by simpa using h1
            rw [hpk]
            intro hcontra
            have hk0 : k0 = k := hcontra
            exact hnotin (hk0 ▸ hkm))
      have hstep : walkSpineGo (it :: rest) n acc
          = walkSpineGo rest (n + 1) (tocSet acc k0 (chapterOf it n)) := by
        simp [walkSpineGo, hid]
      rw [hstep, hset, hrec]
      have hentry : spineEntry (n, it) = some (k0, chapterOf it n) := by
        simp [spineEntry, hid]
      simp [List.enumFrom_cons, List.filterMap_cons, hentry]

/-- On pairwise-distinct defined ids, `walkSpine` is exactly the
enumeration of the spine items filtered to those with a defined id. -/
theorem walkSpine_eq_of_nodup (t0 : String) (ex : List (String × String))
    (l : List Item) (hnd : (l.filterMap Item.id).Nodup) :
    walkSpine ⟨t0, .items l, ex⟩ = (List.enumFrom 0 l).filterMap spineEntry := by
  have h := walkSpineGo_eq_filterMap l 0 []
    hnd (by intro k _ p hp; simp at hp)
  simpa [walkSpine, Spine.contentsItems] using h

/-- A filterMap that refines a map is a sublist of that map. -/
theorem filterMap_sublist_map {α β : Type} (xs : List α) (f : α → Option β)
    (g : α → β) (hf : ∀ x y, f x = some y → y = g x) :
    List.Sublist (xs.filterMap f) (xs.map g) := by
  induction xs with
  | nil => simp
  | cons x xs ih =>
    cases hx : f x with
    | none =>
      rw [List.filterMap_cons_none hx, List.map_cons]
      exact ih.cons _
    | some y =>
      rw [List.filterMap_cons_some hx, List.map_cons, hf x y hx]
      exact ih.cons₂ _

/-- Counterexample to C3 as stated: on the spine `[itemNoId, itemA]` the
single inserted chapter has order 1, so the inserted orders `[1]` are
not the zero-based contiguous sequence `0, 1, …`; and on
`[itemA, itemB, itemA]` the duplicate id makes the entry orders `[2, 1]`,
not even strictly increasing in entry order. -/
theorem walkSpine_orders_not_contiguous_cex :
    ordersList (walkSpine ⟨"ncx", .items [itemNoId, itemA], []⟩)
        ≠ List.range (walkSpine ⟨"ncx", .items [itemNoId, itemA], []⟩).length ∧
    ¬ List.Pairwise (· < ·)
        (ordersList (walkSpine ⟨"ncx", .items [itemA, itemB, itemA], []⟩)) := by
  refine ⟨by decide, by decide⟩

/-- Claim C3 (amended): for every spine whose defined item ids are
pairwise distinct, the `order` values of the inserted chapters are
strictly increasing in entry order and each equals the zero-based
position in `spine.contents` of the item that produced it; since skipped
undefined-id items also advance the counter, the inserted orders need
not start at 0 nor be contiguous, and with duplicate ids even strict
increase can fail because a re-set entry keeps its original position. -/
theorem walkSpine_orders_strict_increasing (t0 : String)
    (ex : List (String × String)) (l : List Item)
    (hnd : (l.filterMap Item.id).Nodup) :
    List.Pairwise (· < ·) (ordersList (walkSpine ⟨t0, .items l, ex⟩)) ∧
    ∀ e ∈ walkSpine ⟨t0, .items l, ex⟩,
      ∃ i it, l[i]? = some it ∧ it.id = some e.1 ∧ e.2.order = i := by
  rw [walkSpine_eq_of_nodup t0 ex l hnd]
  constructor
  · have hmap : ordersList ((List.enumFrom 0 l).filterMap spineEntry)
        = (List.enumFrom 0 l).filterMap
            (fun p => (spineEntry p).map (fun q => q.2.order)) := by
      simp [ordersList, List.map_filterMap]
    rw [hmap]
    have hsub := filterMap_sublist_map (List.enumFrom 0 l)
      (fun p => (spineEntry p).map (fun q => q.2.order)) Prod.fst
      (by
        intro p y hp
        simp only [spineEntry, Option.map_map] at hp
        cases hq : p.2.id with
        | none => rw [hq] at hp; simp at hp
        | some k =>
          rw [hq] at hp
          simp only [Option.map_some'] at hp
          cases hp
          rfl)
    have hrange : (List.enumFrom 0 l).map Prod.fst = List.range l.length := by
      rw [List.enumFrom_map_fst 0 l]
      exact (List.range_eq_range' _).symm
    exact (hrange ▸ List.pairwise_lt_range l.length).sublist hsub
  · intro e he
    obtain ⟨p, hp, hpe⟩ := List.mem_filterMap.mp he
    obtain ⟨i, hi⟩ := List.getElem?_of_mem hp
    rw [List.getElem?_enumFrom] at hi
    cases hl : l[i]? with
    | none => rw [hl] at hi; simp at hi
    | some a =>
      rw [hl] at hi
      simp only [Option.map_some', Option.some.injEq] at hi
      rw [← hi] at hpe
      simp only [spineEntry] at hpe
      cases hq : a.id with
      | none => rw [hq] at hpe; simp at hpe
      | some k =>
        rw [hq] at hpe
        simp only [Option.map_some', Option.some.injEq] at hpe
        refine ⟨i, a, hl, ?_, ?_⟩
        · rw [← hpe]; simpa using hq
        · rw [← hpe]
          simp [chapterOf]

/-- Witness for the amended C3: on `[itemNoId, itemA]` (distinct ids)
the inserted orders are strictly increasing and the entry keyed `a`
carries the order 1 of its source position. -/
theorem walkSpine_orders_strict_increasing_witness :
    List.Pairwise (· < ·)
      (ordersList (walkSpine ⟨"ncx", .items [itemNoId, itemA], []⟩)) ∧
    ∃ i it, [itemNoId, itemA][i]? = some it ∧
      it.id = some ("a", chapterOf itemA 1).1 ∧
      ("a", chapterOf itemA 1).2.order = i :=
  ⟨(walkSpine_orders_strict_increasing "ncx" [] [itemNoId, itemA] (by decide)).1,
   (walkSpine_orders_strict_increasing "ncx" [] [itemNoId, itemA] (by decide)).2
     ("a", chapterOf itemA 1) (by decide)⟩

/-- On a list of items whose ids are all defined, the spine entries are
a plain map: nothing is filtered out. -/
theorem filterMap_spineEntry_eq_map (l : List Item) :
    ∀ n : Nat, (∀ it ∈ l, it.id.isSome = true) →
      (List.enumFrom n l).filterMap spineEntry
        = (List.enumFrom n l).map
            (fun p => (p.2.id.getD "", chapterOf p.2 p.1)) := by
  induction l with
  | nil => intro n _; simp
  | cons it rest ih =>
    intro n h
    have hit := h it (List.mem_cons_self it rest)
    obtain ⟨s, hs⟩ := Option.isSome_iff_exists.mp hit
    have hrec := ih (n + 1) (fun jt hjt => h jt (List.mem_cons_of_mem _ hjt))
    simp [List.enumFrom_cons, List.filterMap_cons, spineEntry, hs, hrec]

/-- Counterexample to C4 as stated: the spine `[itemA, itemA]` has two
items, each with the defined non-empty id `a`, yet `walkSpine` produces
a single entry (the second set for the key `a` updates the first in
place), not the two entries the claim requires. -/
theorem walkSpine_duplicate_id_cex :
    itemA.id = some "a" ∧ "a" ≠ "" ∧
    (walkSpine ⟨"ncx", .items [itemA, itemA], []⟩).length ≠ 2 := by
  refine ⟨by decide, by decide, by decide⟩

/-- Claim C4 (amended): for every spine whose contents are N items with
defined, non-empty, pairwise-distinct ids, the spine-order fallback
produces a TableOfContents with exactly N entries, the entry at each
index i keyed by the i-th item's id with `order` i, and the chapter's
title defaulting to the item's own id when the item supplies no richer
title. -/
theorem walkSpine_spine_fallback_entries (t0 : String)
    (ex : List (String × String)) (l : List Item)
    (hids : ∀ it ∈ l, it.id.getD "" ≠ "")
    (hnd : (l.filterMap Item.id).Nodup) :
    (walkSpine ⟨t0, .items l, ex⟩).length = l.length ∧
    (∀ i : Nat, (walkSpine ⟨t0, .items l, ex⟩)[i]?
        = (l[i]?).map (fun it => (it.id.getD "", chapterOf it i))) ∧
    (∀ i it, l[i]? = some it → it.title = none →
      (walkSpine ⟨t0, .items l, ex⟩)[i]? = some (it.id.getD "", chapterOf it i) ∧
        (chapterOf it i).title = it.id) := by
  have hdef : ∀ it ∈ l, it.id.isSome = true := by
    intro it hit
    cases hid : it.id with
    | none =>
      have hcon := hids it hit
      rw [hid] at hcon
      simp at hcon
    | some s => rfl
  rw [walkSpine_eq_of_nodup t0 ex l hnd, filterMap_spineEntry_eq_map l 0 hdef]
  have hidx : ∀ i : Nat, ((List.enumFrom 0 l).map
      (fun p => (p.2.id.getD "", chapterOf p.2 p.1)))[i]?
        = (l[i]?).map (fun it => (it.id.getD "", chapterOf it i)) := by
    intro i
    rw [List.getElem?_map, List.getElem?_enumFrom]
    cases l[i]? <;> simp
  refine ⟨by simp, hidx, ?_⟩
  intro i it hl htitle
  refine ⟨by rw [hidx i, hl]; rfl, ?_⟩
  simp [chapterOf, htitle]

/-- Witness for the amended C4 on the two-item spine `[itemA, itemB]`. -/
theorem walkSpine_spine_fallback_entries_witness :
    (walkSpine ⟨"ncx", .items [itemA, itemB], []⟩).length
        = [itemA, itemB].length ∧
    (walkSpine ⟨"ncx", .items [itemA, itemB], []⟩)[1]?
        = ([itemA, itemB][1]?).map (fun it => (it.id.getD "", chapterOf it 1)) :=
  ⟨(walkSpine_spine_fallback_entries "ncx" [] [itemA, itemB]
      (by decide) (by decide)).1,
   (walkSpine_spine_fallback_entries "ncx" [] [itemA, itemB]
      (by decide) (by decide)).2.1 1⟩

/-- Claim C2: when neither nav strategy resolves (both outcomes empty or
absent) and the parsed spine's contents are empty, the spine fallback
produces an empty TableOfContents, the pipeline yields no TOC, and the
document-open operation fails fatally with the `NO TOC` error instead of
returning a Parts aggregate. -/
theorem open_fails_no_toc (pkg : Package) (navMap navDoc : Option TableOfContents)
    (hnm : navMap.getD [] = []) (hnd : navDoc.getD [] = [])
    (sp : Spine)
    (hsp : parseSpine pkg.spine (parseManifest pkg.manifestItems) = .ok sp)
    (hempty : sp.contents = .items []) :
    parseRootFile pkg navMap navDoc = .error "NO TOC" := by
  have hw : walkSpine sp = [] := by
    obtain ⟨t, c, e⟩ := sp
    have hc : c = .items [] := hempty
    subst hc
    rfl
  simp only [parseRootFile, hsp]
  simp [parseTOC, hnm, hnd, hw, List.find?]

/-- Witness for C2: the empty package opens to the `NO TOC` error. -/
theorem open_fails_no_toc_witness :
    parseRootFile pkgEmpty none none = .error "NO TOC" :=
  open_fails_no_toc pkgEmpty none none rfl rfl
    ⟨"ncx", .items [], []⟩ (by decide) rfl

/-- Claim C9: for every parsed document and every id absent from its
manifest, `getContent` and `getImage` fail with the unknown-item error
naming that id, and the already-parsed Parts aggregate is returned
unchanged — only that single retrieval call fails. -/
theorem retriever_unknown_item_error (parts : Parts)
    (readData : String → String → Except String String)
    (createURL : String → String) (id : String)
    (habs : lookupFirst parts.manifest id = none) :
    getContent parts readData id
        = (.error (.unknownItem ("Unkown manifest item: " ++ id)), parts) ∧
    getImage parts readData createURL id
        = (.error (.unknownItem ("Unkown manifest item: " ++ id)), parts) := by
  constructor
  · simp [getContent, searchManifestOrPanic, habs]
  · simp [getImage, searchManifestOrPanic, habs]

/-- Witness for C9: looking up the absent id `y` in a document whose
manifest only holds `x`. -/
theorem retriever_unknown_item_error_witness :
    getContent partsX (fun _ _ => .ok "data") "y"
        = (.error (.unknownItem ("Unkown manifest item: " ++ "y")), partsX) ∧
    getImage partsX (fun _ _ => .ok "data") (fun s => s) "y"
        = (.error (.unknownItem ("Unkown manifest item: " ++ "y")), partsX) :=
  retriever_unknown_item_error partsX (fun _ _ => .ok "data") (fun s => s) "y"
    (by decide)

/-- Claim C10: on an archive whose entry list is empty, `Reader.init`
throws `Empty archive!` immediately — its check trace is empty, so no
MIME-signature check and no container lookup is attempted. -/
theorem reader_init_empty_archive :
    initTrace [] = ([], some "Empty archive!") := by
  rfl

end Epub
